import Mathlib

/-!
Verification of the card-pool acquisition and answer-verification engine of an
MTG quiz application, as a shallow embedding in Lean 4.

Sources embedded:
- `src/services/scryfall.ts` (query builder, random-card sampler, name
  normalizer/matcher) and its variant with the set-scoped name cache and
  multiple-choice generator (`getCardNameAutocompleteFromSets`,
  `generateMultipleChoiceOptions`);
- `src/components/CardGuessingGame.tsx` (round/session state machine:
  `submitGuess`, `handleChoiceSelect`, `skipCard`, `resetScores`);
- `src/services/persistence.ts` (`resetGameScores`).

Modelling conventions:
- network fetches are oracles passed as function parameters
  (`fetch : Nat → ...` maps a page number to the response the remote service
  would return; `Option` models a request that throws);
- each call of `Math.random()` inside `Math.floor(Math.random() * n)` is
  modelled by a pick function `pick : Nat → Nat` applied to `n`; a draw from
  the real uniform distribution on `[0,1)` yields exactly the values
  `pick n < n`, so theorems quantify over all such picks;
- JavaScript strings are Lean `String`s; `toLowerCase` is modelled by the
  ASCII `Char.toLower` (the characters the matcher keeps are ASCII only);
  the regex class `\s` is modelled by `isJsWhitespace` below;
- the module-level mutable cache of the autocomplete service is modelled by
  explicit state passing of a `NameCacheState`; the JavaScript object holding
  cached name lists is an association list whose insert replaces an existing
  key in place and appends a new key at the end, like JS property assignment;
- JS `Array.prototype.sort` (stable since ES2019) is modelled by the stable
  `List.insertionSort`; `localeCompare` is an oracle comparator parameter.
-/

/-! ## Data model -/

/-- A card as returned by the remote service; only the fields the embedded
logic reads are modelled: the display name and the originating set code. -/
structure ScryfallCard where
  name : String
  set : String
deriving DecidableEq, Repr, Inhabited

/-- One fetched search page: `{ total_cards, has_more, data }`. -/
structure ScryfallSearchResponse where
  total_cards : Nat
  has_more : Bool
  data : List ScryfallCard
deriving DecidableEq, Repr, Inhabited

/-! ## Query builder (`buildMultipleSetQuery`, scryfall.ts lines 125-139) -/

/-- The single equality filter on a set code, `set:CODE`, as emitted by
`buildMultipleSetQuery` for each code. -/
def mkSetFilter (code : String) : String := "set:" ++ code

/-- Embedding of `buildMultipleSetQuery`: empty input yields the sentinel
impossible filter, a singleton yields one equality filter, two or more codes
yield a parenthesized ` OR `-join of equality filters. -/
def buildMultipleSetQuery : List String → String
  | [] => "set:___NONE___"
  | [c] => "set:" ++ c
  | cs => "(" ++ String.intercalate " OR " (cs.map (fun c => "set:" ++ c)) ++ ")"

/-- Modelled from the spec: the remote query language's semantics for a single
equality filter `set:CODE` (the remote card-search service is outside this
repository). A card matches the filter exactly when its set code equals the
filtered code. -/
def matchesSetFilter (card : ScryfallCard) (code : String) : Bool :=
  card.set == code

/-! ## Answer normalizer/matcher (`normalizeCardName`, `cardNamesMatch`) -/

/-- The character class of the JavaScript regex `\s` (and of `String.trim`):
space, tab, line feed, vertical tab, form feed, carriage return, and the
Unicode space separators / BOM that JS counts as whitespace. -/
def isJsWhitespace (c : Char) : Bool :=
  c == ' ' || c == '\t' || c == '\n' || c == Char.ofNat 0x0b ||
  c == Char.ofNat 0x0c || c == '\r' || c == Char.ofNat 0xa0 ||
  c == Char.ofNat 0x1680 ||
  (Char.ofNat 0x2000 ≤ c && c ≤ Char.ofNat 0x200a) ||
  c == Char.ofNat 0x2028 || c == Char.ofNat 0x2029 ||
  c == Char.ofNat 0x202f || c == Char.ofNat 0x205f ||
  c == Char.ofNat 0x3000 || c == Char.ofNat 0xfeff

/-- A character kept by the regex replace `[^a-z0-9\s]` → `''`: a lowercase
ASCII letter, an ASCII digit, or whitespace. -/
def isKeptChar (c : Char) : Bool :=
  ('a' ≤ c && c ≤ 'z') || ('0' ≤ c && c ≤ '9') || isJsWhitespace c

/-- The regex replace `\s+` → `' '`: collapse every maximal run of whitespace
characters to a single space. The flag records whether the previous character
belonged to a whitespace run. -/
def collapseWsAux (prevWs : Bool) : List Char → List Char
  | [] => []
  | c :: rest =>
    if isJsWhitespace c then
      if prevWs then collapseWsAux true rest
      else ' ' :: collapseWsAux true rest
    else c :: collapseWsAux false rest

/-- JavaScript `String.trim`: drop leading and trailing whitespace. -/
def trimWsChars (l : List Char) : List Char :=
  ((l.dropWhile isJsWhitespace).reverse.dropWhile isJsWhitespace).reverse

/-- Embedding of `String.trim()` as used by the free-text submit guard. -/
def jsTrim (s : String) : String := ⟨trimWsChars s.data⟩

/-- Embedding of `normalizeCardName`: lowercase, strip every character that is
not a lowercase letter, digit, or whitespace, collapse whitespace runs to one
space, trim. -/
def normalizeCardName (s : String) : String :=
  ⟨trimWsChars (collapseWsAux false ((s.data.map Char.toLower).filter isKeptChar))⟩

/-- Embedding of `cardNamesMatch`: two names match exactly when their
normalized forms are identical. -/
def cardNamesMatch (guess correctName : String) : Bool :=
  normalizeCardName guess == normalizeCardName correctName

/-! ## Theorems: C5 and C3 -/

/-- C5: `buildMultipleSetQuery` maps the empty FilterSet to the sentinel
impossible-value filter `set:___NONE___` (an equality filter on a value no
real card carries, hence matching zero cards, and never an empty match-all
query), a singleton to a single equality filter on its code, and two or more
codes to a parenthesized ` OR `-join of per-code equality filters. -/
theorem buildMultipleSetQuery_cases :
    (buildMultipleSetQuery [] = mkSetFilter "___NONE___" ∧
      ∀ card : ScryfallCard, card.set ≠ "___NONE___" →
        matchesSetFilter card "___NONE___" = false) ∧
    (∀ codes, buildMultipleSetQuery codes ≠ "") ∧
    (∀ c, buildMultipleSetQuery [c] = mkSetFilter c) ∧
    (∀ c₁ c₂ cs, buildMultipleSetQuery (c₁ :: c₂ :: cs) =
      "(" ++ String.intercalate " OR " ((c₁ :: c₂ :: cs).map mkSetFilter) ++ ")") := by
  refine ⟨⟨rfl, ?_⟩, ?_, fun c => rfl, fun c₁ c₂ cs => rfl⟩
  · intro card h
    simpa [matchesSetFilter] using h
  · intro codes
    match codes with
    | [] => simp [buildMultipleSetQuery]
    | [c] =>
      simp only [buildMultipleSetQuery]
      intro h
      have : ("set:" ++ c).length = (0 : Nat) := by rw [h]; rfl
      simp [String.length_append] at this
      exact absurd this.1 (by decide)
    | c₁ :: c₂ :: cs =>
      simp only [buildMultipleSetQuery]
      intro h
      have : ("(" ++ String.intercalate " OR "
          ((c₁ :: c₂ :: cs).map (fun c => "set:" ++ c)) ++ ")").length = (0 : Nat) := by
        rw [h]; rfl
      simp [String.length_append] at this
      exact absurd this.2 (by decide)

/-- Witness for `buildMultipleSetQuery_cases` at concrete inputs. -/
theorem buildMultipleSetQuery_cases_witness :
    matchesSetFilter ⟨"Lightning Bolt", "lea"⟩ "___NONE___" = false ∧
    buildMultipleSetQuery ["neo"] = "set:neo" ∧
    buildMultipleSetQuery ["neo", "mom"] = "(set:neo OR set:mom)" := by
  refine ⟨buildMultipleSetQuery_cases.1.2 ⟨"Lightning Bolt", "lea"⟩ (by decide), ?_, ?_⟩
  · exact buildMultipleSetQuery_cases.2.2.1 "neo"
  · have h := buildMultipleSetQuery_cases.2.2.2 "neo" "mom" []
    simpa [mkSetFilter] using h

/-- `Char.ofNat` of a scalar below the surrogate range decodes back to it. -/
theorem charToNat_ofNat_of_lt {n : Nat} (h : n < 0xd800) : (Char.ofNat n).toNat = n := by
  have hv : n.isValidChar := Or.inl h
  simp [Char.ofNat, hv, Char.ofNatAux, Char.toNat, UInt32.toNat]

/-- ASCII lowercasing is idempotent. -/
theorem toLower_toLower (c : Char) : c.toLower.toLower = c.toLower := by
  unfold Char.toLower
  by_cases h : c.toNat ≥ 65 ∧ c.toNat ≤ 90
  · rw [if_pos h]
    have h1 : (Char.ofNat (c.toNat + 32)).toNat = c.toNat + 32 :=
      charToNat_ofNat_of_lt (by omega)
    rw [if_neg]
    rw [h1]
    omega
  · rw [if_neg h, if_neg h]

/-- A string lowered character by character, as `toLowerCase` produces it. -/
def lowerString (s : String) : String := ⟨s.data.map Char.toLower⟩

/-- Normalization is insensitive to lowercasing its input. -/
theorem normalizeCardName_lowerString (s : String) :
    normalizeCardName (lowerString s) = normalizeCardName s := by
  simp only [normalizeCardName, lowerString, List.map_map]
  have hf : Char.toLower ∘ Char.toLower = Char.toLower := funext fun c => toLower_toLower c
  rw [hf]

/-- C3: `cardNamesMatch` holds exactly when the two names normalize to the
same string, where `normalizeCardName` lowercases, strips every character
that is not a lowercase letter, digit or whitespace, collapses whitespace
runs to one space, and trims; hence matching is reflexive (for every name,
empty or not), insensitive to case in general, and — as the spec's examples —
case-insensitive, punctuation-ignoring and whitespace-insensitive. -/
theorem cardNamesMatch_spec :
    (∀ g c, cardNamesMatch g c = true ↔ normalizeCardName g = normalizeCardName c) ∧
    (∀ c, cardNamesMatch c c = true) ∧
    (∀ g c, cardNamesMatch (lowerString g) c = cardNamesMatch g c) ∧
    cardNamesMatch "LIGHTNING bolt" "Lightning Bolt" = true ∧
    cardNamesMatch "Jace, the Mind Sculptor" "Jace the Mind Sculptor" = true ∧
    cardNamesMatch "  foo   bar " "foo bar" = true := by
  refine ⟨fun g c => ?_, fun c => ?_, fun g c => ?_, by decide, by decide, by decide⟩
  · simp [cardNamesMatch]
  · simp [cardNamesMatch]
  · simp [cardNamesMatch, normalizeCardName_lowerString]

/-! ## Random card sampler (`getRandomCardFromSets`, scryfall.ts lines 189-228)

The three `throw new ScryfallApiError(...)` sites of the function are the
three first error constructors below, in source order.  `divByZeroPages`
models the degenerate state in which `Math.ceil(total_cards / cardsPerPage)`
divides by zero (page 1 reported a positive total but an empty item list):
the JavaScript division then produces the non-finite `Infinity` instead of a
page count. -/

inductive SamplerError
  | noSetsSelected
  | noCardsFound
  | noCardsOnPage
  | divByZeroPages
deriving DecidableEq, Repr

/-- The spec's `EmptyPoolError` covers the two throw sites reachable when the
pool resolves to nothing: no sets selected, or zero total results. -/
def SamplerError.isEmptyPool : SamplerError → Bool
  | .noSetsSelected => true
  | .noCardsFound => true
  | _ => false

/-- `Math.ceil(a / b)` on natural operands: `none` models the non-finite
result of the JavaScript division when `b = 0`. -/
def jsCeilDiv (a b : Nat) : Option Nat :=
  if b = 0 then none else some ((a + b - 1) / b)

/-- The page count the sampler computes from the first page:
`Math.ceil(total_cards / firstPage.data.length)`. -/
def totalPagesOf (resp : ScryfallSearchResponse) : Option Nat :=
  jsCeilDiv resp.total_cards resp.data.length

/-- Embedding of `getRandomCardFromSets`.  `fetch p` is the response of
`searchCardsMultipleSets(setCodes, p)`; `pickPage n` and `pickIdx n` model
the two `Math.floor(Math.random() * n)` draws (a uniform draw yields exactly
the values below `n`). -/
def getRandomCardFromSets (fetch : Nat → ScryfallSearchResponse)
    (pickPage pickIdx : Nat → Nat) (setCodes : List String) :
    Except SamplerError ScryfallCard :=
  if setCodes.isEmpty then .error .noSetsSelected
  else
    let firstPage := fetch 1
    if firstPage.total_cards = 0 then .error .noCardsFound
    else
      match totalPagesOf firstPage with
      | none => .error .divByZeroPages
      | some totalPages =>
        let randomPage := pickPage totalPages + 1
        let randomPageResponse := fetch randomPage
        if randomPageResponse.data.isEmpty then .error .noCardsOnPage
        else
          .ok (randomPageResponse.data.getD
            (pickIdx randomPageResponse.data.length) default)

/-- `(total + ps - 1) / ps` is the ceiling of `total / ps`: it is an upper
bound on the pages needed and the least such bound. -/
theorem ceilDiv_characterization {total ps : Nat} (h0 : 0 < total) (hps : 0 < ps) :
    total ≤ ((total + ps - 1) / ps) * ps ∧
    ∀ m, total ≤ m * ps → (total + ps - 1) / ps ≤ m := by
  have hrw : total + ps - 1 = (total - 1) + ps := by omega
  have hdiv : ((total - 1) + ps) / ps = (total - 1) / ps + 1 := Nat.add_div_right _ hps
  have hdm := Nat.div_add_mod (total - 1) ps
  have hmod : (total - 1) % ps < ps := Nat.mod_lt _ hps
  rw [hrw, hdiv]
  constructor
  · have hmul : ((total - 1) / ps + 1) * ps = ps * ((total - 1) / ps) + ps := by ring
    omega
  · intro m hm
    by_contra hc
    push_neg at hc
    have hm' : m ≤ (total - 1) / ps := by omega
    have h1 : m * ps ≤ ((total - 1) / ps) * ps := Nat.mul_le_mul_right _ hm'
    have h2 : ((total - 1) / ps) * ps = ps * ((total - 1) / ps) := Nat.mul_comm _ _
    omega

/-- C2: the sampler fails with an `EmptyPoolError` when the FilterSet is
empty or page 1 reports `total_cards = 0`; otherwise (with page 1 non-empty
so the division is defined) it computes `totalPages = ceil(total_cards /
pageSize)` with `pageSize` the item count of page 1, chooses a target page in
`[1, totalPages]` determined by the uniform draw, and then either fails with
`NoCardsOnPageError` when the target page has zero items or returns exactly
the item of the target page selected by the second uniform draw. -/
theorem getRandomCardFromSets_spec
    (fetch : Nat → ScryfallSearchResponse) (pickPage pickIdx : Nat → Nat)
    (hpp : ∀ n, 0 < n → pickPage n < n) (hpi : ∀ n, 0 < n → pickIdx n < n)
    (setCodes : List String) :
    (getRandomCardFromSets fetch pickPage pickIdx [] = .error .noSetsSelected ∧
      SamplerError.noSetsSelected.isEmptyPool = true) ∧
    (setCodes ≠ [] → (fetch 1).total_cards = 0 →
      getRandomCardFromSets fetch pickPage pickIdx setCodes = .error .noCardsFound ∧
      SamplerError.noCardsFound.isEmptyPool = true) ∧
    (setCodes ≠ [] → 0 < (fetch 1).total_cards → (fetch 1).data ≠ [] →
      ∀ tp, totalPagesOf (fetch 1) = some tp →
        ((fetch 1).total_cards ≤ tp * (fetch 1).data.length ∧
          ∀ m, (fetch 1).total_cards ≤ m * (fetch 1).data.length → tp ≤ m) ∧
        (1 ≤ pickPage tp + 1 ∧ pickPage tp + 1 ≤ tp) ∧
        ((fetch (pickPage tp + 1)).data = [] →
          getRandomCardFromSets fetch pickPage pickIdx setCodes =
            .error .noCardsOnPage) ∧
        ((fetch (pickPage tp + 1)).data ≠ [] →
          getRandomCardFromSets fetch pickPage pickIdx setCodes =
            .ok ((fetch (pickPage tp + 1)).data.getD
              (pickIdx (fetch (pickPage tp + 1)).data.length) default) ∧
          (fetch (pickPage tp + 1)).data.getD
              (pickIdx (fetch (pickPage tp + 1)).data.length) default
            ∈ (fetch (pickPage tp + 1)).data)) := by
  refine ⟨⟨by simp [getRandomCardFromSets], rfl⟩, ?_, ?_⟩
  · intro hne h0
    refine ⟨?_, rfl⟩
    simp [getRandomCardFromSets, hne, h0]
  · intro hne h0 hdata tp htp
    have hps : 0 < (fetch 1).data.length := List.length_pos.mpr hdata
    have htp' : tp = ((fetch 1).total_cards + (fetch 1).data.length - 1) /
        (fetch 1).data.length := by
      simp [totalPagesOf, jsCeilDiv, Nat.pos_iff_ne_zero.mp hps] at htp
      omega
    have hceil := ceilDiv_characterization h0 hps
    have htppos : 0 < tp := by
      rcases Nat.eq_zero_or_pos tp with h | h
      · exfalso
        have := (htp' ▸ hceil).1
        rw [h] at this
        simp at this
        omega
      · exact h
    refine ⟨htp' ▸ hceil, ⟨by omega, by have := hpp tp htppos; omega⟩, ?_, ?_⟩
    · intro hempty
      simp [getRandomCardFromSets, hne, Nat.pos_iff_ne_zero.mp h0, totalPagesOf,
        jsCeilDiv, Nat.pos_iff_ne_zero.mp hps, ← htp', hempty]
    · intro hnonempty
      constructor
      · simp [getRandomCardFromSets, hne, Nat.pos_iff_ne_zero.mp h0, totalPagesOf,
          jsCeilDiv, Nat.pos_iff_ne_zero.mp hps, ← htp', hnonempty]
      · have hlen : 0 < (fetch (pickPage tp + 1)).data.length :=
          List.length_pos.mpr hnonempty
        have hidx := hpi _ hlen
        rw [List.getD_eq_getElem _ _ hidx]
        exact List.getElem_mem hidx

/-- A two-page concrete fetch oracle: page 1 holds two of three cards, later
pages hold the third. -/
def sampleFetchW : Nat → ScryfallSearchResponse := fun n =>
  if n = 1 then ⟨3, true, [⟨"Alpha", "neo"⟩, ⟨"Beta", "neo"⟩]⟩
  else ⟨3, true, [⟨"Gamma", "neo"⟩]⟩

/-- Witness for `getRandomCardFromSets_spec`: with three total cards, two per
page, and both draws taking the largest admissible value, the sampler lands on
page 2 and returns its only card. -/
theorem getRandomCardFromSets_spec_witness :
    getRandomCardFromSets sampleFetchW (fun n => n - 1) (fun n => n - 1) ["neo"] =
      .ok ⟨"Gamma", "neo"⟩ ∧
    (sampleFetchW 1).total_cards ≤ 2 * (sampleFetchW 1).data.length := by
  have h := getRandomCardFromSets_spec sampleFetchW (fun n => n - 1) (fun n => n - 1)
    (fun n hn => by show n - 1 < n; omega) (fun n hn => by show n - 1 < n; omega) ["neo"]
  have h3 := h.2.2 (by decide) (by decide) (by decide) 2 (by decide)
  constructor
  · have hres := (h3.2.2.2 (by decide)).1
    have hval : ((sampleFetchW ((fun n : Nat => n - 1) 2 + 1)).data.getD
        ((fun n : Nat => n - 1)
          (sampleFetchW ((fun n : Nat => n - 1) 2 + 1)).data.length) default) =
        (⟨"Gamma", "neo"⟩ : ScryfallCard) := by decide
    exact hres.trans (congrArg Except.ok hval)
  · have := h3.1.1
    simpa using this

/-- C9: the sampler's page computation divides `total_cards` by the item
count of page 1 with no zero guard; whenever a positive total comes with a
non-empty page 1 the computation is a well-defined page count, and for a
response with positive total and empty page 1 it is the non-finite `none`,
which the sampler surfaces as the division-by-zero outcome. -/
theorem totalPages_division_guard :
    (∀ resp : ScryfallSearchResponse, 0 < resp.total_cards → resp.data ≠ [] →
      totalPagesOf resp =
        some ((resp.total_cards + resp.data.length - 1) / resp.data.length)) ∧
    totalPagesOf ⟨5, false, []⟩ = none ∧
    (∀ (fetch : Nat → ScryfallSearchResponse) (pickPage pickIdx : Nat → Nat)
        (setCodes : List String), setCodes ≠ [] →
      0 < (fetch 1).total_cards → (fetch 1).data = [] →
      getRandomCardFromSets fetch pickPage pickIdx setCodes =
        .error .divByZeroPages) := by
  refine ⟨?_, rfl, ?_⟩
  · intro resp h0 hdata
    have hps : resp.data.length ≠ 0 :=
      Nat.pos_iff_ne_zero.mp (List.length_pos.mpr hdata)
    simp [totalPagesOf, jsCeilDiv, hps]
  · intro fetch pickPage pickIdx setCodes hne h0 hempty
    have hlen : (fetch 1).data.length = 0 := by rw [hempty]; rfl
    simp [getRandomCardFromSets, hne, Nat.pos_iff_ne_zero.mp h0, totalPagesOf,
      jsCeilDiv, hlen]

/-- Witness for `totalPages_division_guard`: a one-card response has one page;
a fetch whose first page reports seven cards but carries none drives the
sampler into the division-by-zero outcome. -/
theorem totalPages_division_guard_witness :
    totalPagesOf ⟨1, false, [⟨"Alpha", "neo"⟩]⟩ = some 1 ∧
    getRandomCardFromSets (fun _ => ⟨7, true, []⟩) (fun n => n) (fun n => n)
      ["neo"] = .error .divByZeroPages := by
  constructor
  · exact totalPages_division_guard.1 ⟨1, false, [⟨"Alpha", "neo"⟩]⟩
      (by decide) (by decide)
  · exact totalPages_division_guard.2.2 (fun _ => ⟨7, true, []⟩)
      (fun n => n) (fun n => n) ["neo"] (by decide) (by decide) (by decide)

/-! ## Set-scoped autocomplete name cache
(`getCardNameAutocompleteFromSets`, scryfall.ts variant lines 266-346)

The module-level mutable pair

    let cardNamesCache: { [key: string]: string[] } = {};
    let cacheKey = '';

is modelled by `NameCacheState`; every call threads the state explicitly. -/

/-- Lexicographic comparison of character lists by code point, the default
comparator of JavaScript `Array.prototype.sort` on strings (they agree on all
code points below `0x10000`; astral-plane surrogate order is out of scope). -/
def charListLe : List Char → List Char → Bool
  | [], _ => true
  | _ :: _, [] => false
  | a :: as, b :: bs =>
    if a < b then true else if b < a then false else charListLe as bs

/-- JS default string sort, modelled as a stable structural sort. -/
def sortStrings (l : List String) : List String :=
  l.insertionSort (fun a b => charListLe a.data b.data = true)

/-- The cache key: `setCodes.sort().join(',')`. -/
def canonicalKey (setCodes : List String) : String :=
  String.intercalate "," (sortStrings setCodes)

/-- The module-level cache state: the JS object (an insertion-ordered
association list whose assignment replaces an existing key in place) and the
active-key marker. -/
structure NameCacheState where
  cardNamesCache : List (String × List String)
  cacheKey : String
deriving DecidableEq, Repr, Inhabited

/-- JS property assignment `cardNamesCache[k] = v`: replace in place when the
key exists, append otherwise. -/
def cacheAssign (k : String) (v : List String) :
    List (String × List String) → List (String × List String)
  | [] => [(k, v)]
  | (k', v') :: rest =>
    if k' = k then (k, v) :: rest else (k', v') :: cacheAssign k v rest

/-- The lowercased character sequence of a string (JS `toLowerCase`). -/
def lowerChars (s : String) : List Char := s.data.map Char.toLower

/-- JS `String.includes`: the needle occurs contiguously in the haystack. -/
def containsSub (needle : List Char) : List Char → Bool
  | [] => needle.isEmpty
  | c :: rest => needle.isPrefixOf (c :: rest) || containsSub needle rest

/-- The comparator of the autocomplete sort, as a `≤`-style test: names whose
lowercase form starts with the lowercase query sort first; ties fall to the
locale comparator `lc` (where `lc a b` models `a.localeCompare(b) <= 0`). -/
def autocompleteLe (queryLower : List Char) (lc : String → String → Bool)
    (a b : String) : Bool :=
  let aStarts := queryLower.isPrefixOf (lowerChars a)
  let bStarts := queryLower.isPrefixOf (lowerChars b)
  if aStarts && !bStarts then true
  else if !aStarts && bStarts then false
  else lc a b

/-- The serving stage: filter the cached names by case-insensitive substring
match with the query, sort by the priority comparator, truncate to 8. -/
def filterAndRank (lc : String → String → Bool) (query : String)
    (names : List String) : List String :=
  ((names.filter (fun n => containsSub (lowerChars query) (lowerChars n))).insertionSort
    (fun a b => autocompleteLe (lowerChars query) lc a b = true)).take 8

/-- First-occurrence deduplication, the order `Array.from(new Set(names))`
produces; `seen` accumulates the names already emitted. -/
def dedupAux (seen : List String) : List String → List String
  | [] => []
  | a :: as => if a ∈ seen then dedupAux seen as else a :: dedupAux (a :: seen) as

/-- `Array.from(new Set(names))`: drop every later duplicate. -/
def dedupKeepFirst (names : List String) : List String := dedupAux [] names

/-- The rebuild stage's name collection: page 1's names, then (when the query
has more pages and more than 175 results) pages 2 and 3, each additional
fetch falling back to the partial list on failure. -/
def buildCacheNames (fetch : Nat → Option ScryfallSearchResponse)
    (resp1 : ScryfallSearchResponse) : List String :=
  let ns1 := resp1.data.map ScryfallCard.name
  if resp1.has_more && decide (resp1.total_cards > 175) then
    match fetch 2 with
    | none => ns1
    | some r2 =>
      let ns2 := ns1 ++ r2.data.map ScryfallCard.name
      if r2.has_more then
        match fetch 3 with
        | none => ns2
        | some r3 => ns2 ++ r3.data.map ScryfallCard.name
      else ns2
  else ns1

/-- Embedding of `getCardNameAutocompleteFromSets`.  `lc` is the locale
comparator oracle, `fetch p` the response of `searchCardsMultipleSets` for
page `p` (`none` models a thrown request), `globalAuto` the global
(unscoped) autocomplete endpoint used as fallback.  Returns the suggestions
and the updated module state. -/
def getCardNameAutocompleteFromSets (lc : String → String → Bool)
    (fetch : Nat → Option ScryfallSearchResponse)
    (globalAuto : String → List String)
    (query : String) (setCodes : List String) (st : NameCacheState) :
    List String × NameCacheState :=
  if query.length < 2 || setCodes.isEmpty then ([], st)
  else
    let currentCacheKey := canonicalKey setCodes
    if st.cacheKey ≠ currentCacheKey ∨
        st.cardNamesCache.lookup currentCacheKey = none then
      match fetch 1 with
      | none => (globalAuto query, st)
      | some resp1 =>
        if resp1.total_cards = 0 then (globalAuto query, st)
        else
          let entry := sortStrings (dedupKeepFirst (buildCacheNames fetch resp1))
          (filterAndRank lc query entry,
            ⟨cacheAssign currentCacheKey entry st.cardNamesCache, currentCacheKey⟩)
    else
      (filterAndRank lc query
        ((st.cardNamesCache.lookup currentCacheKey).getD []), st)

/-! ## Cache lemmas -/

/-- Assigning a key makes it the one looked up. -/
theorem lookup_cacheAssign (k : String) (v : List String) :
    ∀ l, (cacheAssign k v l).lookup k = some v := by
  intro l
  induction l with
  | nil => simp [cacheAssign, List.lookup]
  | cons p rest ih =>
    obtain ⟨k', v'⟩ := p
    by_cases h : k' = k
    · simp [cacheAssign, h, List.lookup]
    · have hbeq : (k == k') = false := beq_eq_false_iff_ne.mpr (Ne.symm h)
      simp [cacheAssign, h, List.lookup, hbeq, ih]

/-- Deduplication only keeps elements of the input. -/
theorem mem_of_mem_dedupAux :
    ∀ (seen l : List String) (x : String), x ∈ dedupAux seen l → x ∈ l := by
  intro seen l
  induction l generalizing seen with
  | nil => intro x h; simp [dedupAux] at h
  | cons a as ih =>
    intro x h
    simp only [dedupAux] at h
    by_cases ha : a ∈ seen
    · simp only [if_pos ha] at h
      exact List.mem_cons_of_mem a (ih seen x h)
    · simp only [if_neg ha] at h
      rcases List.mem_cons.mp h with h | h
      · exact h ▸ List.mem_cons_self a as
      · exact List.mem_cons_of_mem a (ih (a :: seen) x h)

/-- Everything the serving stage returns is a cached name that contains the
query case-insensitively. -/
theorem mem_of_mem_filterAndRank (lc : String → String → Bool) (query : String)
    (names : List String) (n : String) (h : n ∈ filterAndRank lc query names) :
    n ∈ names ∧ containsSub (lowerChars query) (lowerChars n) = true := by
  have h1 : n ∈ (names.filter
      (fun n => containsSub (lowerChars query) (lowerChars n))).insertionSort
        (fun a b => autocompleteLe (lowerChars query) lc a b = true) :=
    List.mem_of_mem_take h
  rw [List.mem_insertionSort] at h1
  have := List.mem_filter.mp h1
  exact ⟨this.1, this.2⟩

/-- Guard branch: a short query or empty FilterSet returns nothing at once. -/
theorem getFromSets_eq_guard (lc : String → String → Bool)
    (fetch : Nat → Option ScryfallSearchResponse) (g : String → List String)
    (query : String) (codes : List String) (st : NameCacheState)
    (hg : (query.length < 2 || codes.isEmpty) = true) :
    getCardNameAutocompleteFromSets lc fetch g query codes st = ([], st) := by
  simp [getCardNameAutocompleteFromSets, hg]

/-- Rebuild branch, failed page-1 fetch: global fallback, state untouched. -/
theorem getFromSets_eq_fetchFail (lc : String → String → Bool)
    (fetch : Nat → Option ScryfallSearchResponse) (g : String → List String)
    (query : String) (codes : List String) (st : NameCacheState)
    (hg : (query.length < 2 || codes.isEmpty) = false)
    (hreb : st.cacheKey ≠ canonicalKey codes ∨
      st.cardNamesCache.lookup (canonicalKey codes) = none)
    (hf : fetch 1 = none) :
    getCardNameAutocompleteFromSets lc fetch g query codes st = (g query, st) := by
  simp only [getCardNameAutocompleteFromSets]
  rw [if_neg (by simp [hg]), if_pos hreb, hf]

/-- Rebuild branch, zero total: global fallback, state untouched. -/
theorem getFromSets_eq_zeroTotal (lc : String → String → Bool)
    (fetch : Nat → Option ScryfallSearchResponse) (g : String → List String)
    (query : String) (codes : List String) (st : NameCacheState)
    (hg : (query.length < 2 || codes.isEmpty) = false)
    (hreb : st.cacheKey ≠ canonicalKey codes ∨
      st.cardNamesCache.lookup (canonicalKey codes) = none)
    (r1 : ScryfallSearchResponse) (hf : fetch 1 = some r1)
    (h0 : r1.total_cards = 0) :
    getCardNameAutocompleteFromSets lc fetch g query codes st = (g query, st) := by
  simp only [getCardNameAutocompleteFromSets]
  rw [if_neg (by simp [hg]), if_pos hreb, hf]
  simp [h0]

/-- Rebuild branch, successful fetch: the fresh entry is assigned under the
requested key and becomes the active slot, and suggestions are served from
it. -/
theorem getFromSets_eq_rebuild (lc : String → String → Bool)
    (fetch : Nat → Option ScryfallSearchResponse) (g : String → List String)
    (query : String) (codes : List String) (st : NameCacheState)
    (hg : (query.length < 2 || codes.isEmpty) = false)
    (hreb : st.cacheKey ≠ canonicalKey codes ∨
      st.cardNamesCache.lookup (canonicalKey codes) = none)
    (r1 : ScryfallSearchResponse) (hf : fetch 1 = some r1)
    (h0 : r1.total_cards ≠ 0) :
    getCardNameAutocompleteFromSets lc fetch g query codes st =
      (filterAndRank lc query
          (sortStrings (dedupKeepFirst (buildCacheNames fetch r1))),
        ⟨cacheAssign (canonicalKey codes)
            (sortStrings (dedupKeepFirst (buildCacheNames fetch r1)))
            st.cardNamesCache,
          canonicalKey codes⟩) := by
  simp only [getCardNameAutocompleteFromSets]
  rw [if_neg (by simp [hg]), if_pos hreb, hf]
  simp [h0]

/-- Populated branch: the active key matches and has an entry, which is
served unchanged. -/
theorem getFromSets_eq_populated (lc : String → String → Bool)
    (fetch : Nat → Option ScryfallSearchResponse) (g : String → List String)
    (query : String) (codes : List String) (st : NameCacheState)
    (hg : (query.length < 2 || codes.isEmpty) = false)
    (hkey : st.cacheKey = canonicalKey codes)
    (names : List String)
    (hlookup : st.cardNamesCache.lookup (canonicalKey codes) = some names) :
    getCardNameAutocompleteFromSets lc fetch g query codes st =
      (filterAndRank lc query names, st) := by
  simp [getCardNameAutocompleteFromSets, hg, hkey, hlookup]

/-! ## C1: the name cache across a FilterSet switch -/

/-- A locale comparator oracle instance: code-point order. -/
def c1LcW : String → String → Bool := fun a b => charListLe a.data b.data

/-- Fetch oracle while `{seta}` is selected: one card, `Alpha Card`. -/
def c1FetchA : Nat → Option ScryfallSearchResponse :=
  fun _ => some ⟨1, false, [⟨"Alpha Card", "seta"⟩]⟩

/-- Fetch oracle while `{setb}` is selected: one card, `Beta Card`. -/
def c1FetchB : Nat → Option ScryfallSearchResponse :=
  fun _ => some ⟨1, false, [⟨"Beta Card", "setb"⟩]⟩

/-- Module state after an autocomplete request for `{seta}` from a fresh
start. -/
def c1State1 : NameCacheState :=
  (getCardNameAutocompleteFromSets c1LcW c1FetchA (fun _ => [])
    "al" ["seta"] ⟨[], ""⟩).2

/-- Module state after a subsequent autocomplete request for `{setb}`. -/
def c1State2 : NameCacheState :=
  (getCardNameAutocompleteFromSets c1LcW c1FetchB (fun _ => [])
    "be" ["setb"] c1State1).2

/-- C1 counterexample: after switching from `{seta}` to `{setb}` the active
key changes, but the name cached only under `{seta}` is still stored in the
cache object — the old key's names are not discarded, so the cache holds two
keys' names at once. -/
theorem nameCache_old_key_retained :
    c1State1.cardNamesCache.lookup "seta" = some ["Alpha Card"] ∧
    c1State2.cacheKey = "setb" ∧
    c1State2.cardNamesCache.lookup "setb" = some ["Beta Card"] ∧
    c1State2.cardNamesCache.lookup "seta" = some ["Alpha Card"] := by decide

/-- C1 (amended): the cache object retains old keys' name lists, but only one
slot is ever active: every suggestion served comes from the entry stored
under the requested FilterSet's own key in the resulting state (or from the
global fallback), and when the requested key differs from the active key the
entry is rebuilt from this call's fetched pages before serving — so a name
cached only under a previous key is never returned for the new key. -/
theorem nameCache_single_active_slot (lc : String → String → Bool)
    (fetch : Nat → Option ScryfallSearchResponse)
    (globalAuto : String → List String) (query : String)
    (setCodes : List String) (st : NameCacheState) :
    (∀ n ∈ (getCardNameAutocompleteFromSets lc fetch globalAuto query
        setCodes st).1,
      n ∈ ((getCardNameAutocompleteFromSets lc fetch globalAuto query setCodes
          st).2.cardNamesCache.lookup (canonicalKey setCodes)).getD [] ∨
      n ∈ globalAuto query) ∧
    (st.cacheKey ≠ canonicalKey setCodes →
      ∀ n ∈ (getCardNameAutocompleteFromSets lc fetch globalAuto query
          setCodes st).1,
        (∃ r1, fetch 1 = some r1 ∧ r1.total_cards ≠ 0 ∧
          n ∈ buildCacheNames fetch r1) ∨
        n ∈ globalAuto query) := by
  by_cases hg : (query.length < 2 || setCodes.isEmpty) = true
  · rw [getFromSets_eq_guard lc fetch globalAuto query setCodes st hg]
    exact ⟨fun n hn => absurd hn (List.not_mem_nil n),
      fun _ n hn => absurd hn (List.not_mem_nil n)⟩
  · have hg' : (query.length < 2 || setCodes.isEmpty) = false :=
      eq_false_of_ne_true hg
    by_cases hreb : st.cacheKey ≠ canonicalKey setCodes ∨
        st.cardNamesCache.lookup (canonicalKey setCodes) = none
    · cases hfetch : fetch 1 with
      | none =>
        rw [getFromSets_eq_fetchFail lc fetch globalAuto query setCodes st
          hg' hreb hfetch]
        exact ⟨fun n hn => Or.inr hn, fun _ n hn => Or.inr hn⟩
      | some r1 =>
        by_cases h0 : r1.total_cards = 0
        · rw [getFromSets_eq_zeroTotal lc fetch globalAuto query setCodes st
            hg' hreb r1 hfetch h0]
          exact ⟨fun n hn => Or.inr hn, fun _ n hn => Or.inr hn⟩
        · rw [getFromSets_eq_rebuild lc fetch globalAuto query setCodes st
            hg' hreb r1 hfetch h0]
          constructor
          · intro n hn
            left
            have hmem := (mem_of_mem_filterAndRank _ _ _ _ hn).1
            rw [lookup_cacheAssign]
            simpa using hmem
          · intro _ n hn
            left
            refine ⟨r1, hfetch ▸ rfl, h0, ?_⟩
            have hmem := (mem_of_mem_filterAndRank _ _ _ _ hn).1
            have h2 : n ∈ dedupKeepFirst (buildCacheNames fetch r1) := by
              simpa [sortStrings, List.mem_insertionSort] using hmem
            exact mem_of_mem_dedupAux [] _ n h2
    · push_neg at hreb
      obtain ⟨hkey', hlookup⟩ := hreb
      obtain ⟨names, hnames⟩ := Option.ne_none_iff_exists'.mp hlookup
      rw [getFromSets_eq_populated lc fetch globalAuto query setCodes st
        hg' hkey' names hnames]
      constructor
      · intro n hn
        left
        have hmem := (mem_of_mem_filterAndRank _ _ _ _ hn).1
        rw [hnames]
        simpa using hmem
      · intro hne
        exact absurd hkey' hne

/-- Witness for `nameCache_single_active_slot`: a fresh request for `{seta}`
serves `Alpha Card`, and both conjuncts apply there (the state starts with an
empty active key, so the key differs and the entry is freshly built). -/
theorem nameCache_single_active_slot_witness :
    ("Alpha Card" ∈ (getCardNameAutocompleteFromSets c1LcW c1FetchA
        (fun _ => []) "al" ["seta"] ⟨[], ""⟩).1) ∧
    ("Alpha Card" ∈ ((getCardNameAutocompleteFromSets c1LcW c1FetchA
          (fun _ => []) "al" ["seta"]
          ⟨[], ""⟩).2.cardNamesCache.lookup (canonicalKey ["seta"])).getD [] ∨
      "Alpha Card" ∈ (fun _ : String => ([] : List String)) "al") ∧
    ((∃ r1, c1FetchA 1 = some r1 ∧ r1.total_cards ≠ 0 ∧
        "Alpha Card" ∈ buildCacheNames c1FetchA r1) ∨
      "Alpha Card" ∈ (fun _ : String => ([] : List String)) "al") := by
  refine ⟨by decide, ?_, ?_⟩
  · exact (nameCache_single_active_slot c1LcW c1FetchA (fun _ => []) "al"
      ["seta"] ⟨[], ""⟩).1 "Alpha Card" (by decide)
  · exact (nameCache_single_active_slot c1LcW c1FetchA (fun _ => []) "al"
      ["seta"] ⟨[], ""⟩).2 (by decide) "Alpha Card" (by decide)

/-! ## C7: filtering, ordering and truncation of suggestions -/

/-- Code-point comparison of character lists is total. -/
theorem charListLe_total : ∀ as bs, charListLe as bs = true ∨ charListLe bs as = true
  | [], _ => Or.inl rfl
  | _ :: _, [] => Or.inr rfl
  | a :: as, b :: bs => by
    by_cases hab : a < b
    · left
      simp [charListLe, hab]
    · by_cases hba : b < a
      · right
        simp [charListLe, hba]
      · rcases charListLe_total as bs with h | h
        · left
          simp [charListLe, hab, hba, h]
        · right
          simp [charListLe, hba, hab, h]

/-- Code-point comparison of character lists is transitive. -/
theorem charListLe_trans :
    ∀ as bs cs, charListLe as bs = true → charListLe bs cs = true →
      charListLe as cs = true
  | [], _, _, _, _ => rfl
  | _ :: _, [], _, h, _ => by simp [charListLe] at h
  | _ :: _, _ :: _, [], _, h => by simp [charListLe] at h
  | a :: as, b :: bs, c :: cs, h1, h2 => by
    by_cases hab : a < b
    · by_cases hbc : b < c
      · simp [charListLe, lt_trans hab hbc]
      · by_cases hcb : c < b
        · simp [charListLe, hbc, hcb] at h2
        · have hbceq : b = c := le_antisymm (not_lt.mp hcb) (not_lt.mp hbc)
          subst hbceq
          simp [charListLe, hab]
    · by_cases hba : b < a
      · simp [charListLe, hab, hba] at h1
      · have habeq : a = b := le_antisymm (not_lt.mp hba) (not_lt.mp hab)
        subst habeq
        by_cases hac : a < c
        · simp [charListLe, hac]
        · by_cases hca : c < a
          · simp [charListLe, hac, hca] at h2
          · simp only [charListLe, if_neg hab, if_neg hac, if_neg hca] at *
            exact charListLe_trans as bs cs h1 h2

/-- The priority comparator is total whenever the locale comparator is. -/
theorem autocompleteLe_total (ql : List Char) (lc : String → String → Bool)
    (hlc : ∀ a b, lc a b = true ∨ lc b a = true) (a b : String) :
    autocompleteLe ql lc a b = true ∨ autocompleteLe ql lc b a = true := by
  unfold autocompleteLe
  cases haS : ql.isPrefixOf (lowerChars a) <;>
    cases hbS : ql.isPrefixOf (lowerChars b) <;>
      simp [haS, hbS, hlc a b]

/-- The priority comparator is transitive whenever the locale comparator is. -/
theorem autocompleteLe_trans (ql : List Char) (lc : String → String → Bool)
    (hlc : ∀ a b c, lc a b = true → lc b c = true → lc a c = true)
    (a b c : String) (h1 : autocompleteLe ql lc a b = true)
    (h2 : autocompleteLe ql lc b c = true) :
    autocompleteLe ql lc a c = true := by
  unfold autocompleteLe at *
  cases haS : ql.isPrefixOf (lowerChars a) <;>
    cases hbS : ql.isPrefixOf (lowerChars b) <;>
      cases hcS : ql.isPrefixOf (lowerChars c) <;>
        simp_all [hlc a b c]

/-- C7: with a prefix of length at least 2, a non-empty FilterSet and a
populated cache (active key matches and has an entry), the suggestions are
exactly the cached names filtered by case-insensitive substring match,
ordered by the priority comparator — names whose lowercase form starts with
the lowercase prefix before substring-only matches, ties by the locale
comparator — and truncated to at most 8, with the module state untouched:
the result has at most 8 entries, every entry is a cached name matching the
prefix, every matching cached name appears when at most 8 match, and
consecutive entries are ordered by the priority comparator. -/
theorem suggestions_filter_rank_truncate (lc : String → String → Bool)
    (fetch : Nat → Option ScryfallSearchResponse)
    (globalAuto : String → List String) (query : String)
    (setCodes : List String) (st : NameCacheState) (names : List String)
    (hq : 2 ≤ query.length) (hcodes : setCodes ≠ [])
    (hkey : st.cacheKey = canonicalKey setCodes)
    (hentry : st.cardNamesCache.lookup (canonicalKey setCodes) = some names)
    (hlcTot : ∀ a b, lc a b = true ∨ lc b a = true)
    (hlcTrans : ∀ a b c, lc a b = true → lc b c = true → lc a c = true) :
    (getCardNameAutocompleteFromSets lc fetch globalAuto query setCodes
        st).2 = st ∧
    (getCardNameAutocompleteFromSets lc fetch globalAuto query setCodes
        st).1.length ≤ 8 ∧
    (∀ n ∈ (getCardNameAutocompleteFromSets lc fetch globalAuto query setCodes
        st).1, n ∈ names ∧ containsSub (lowerChars query) (lowerChars n) = true) ∧
    ((names.filter
        (fun n => containsSub (lowerChars query) (lowerChars n))).length ≤ 8 →
      ∀ n ∈ names, containsSub (lowerChars query) (lowerChars n) = true →
        n ∈ (getCardNameAutocompleteFromSets lc fetch globalAuto query setCodes
          st).1) ∧
    List.Pairwise (fun a b => autocompleteLe (lowerChars query) lc a b = true)
      (getCardNameAutocompleteFromSets lc fetch globalAuto query setCodes
        st).1 := by
  have hg' : (query.length < 2 || setCodes.isEmpty) = false := by
    simp [Nat.not_lt.mpr hq, hcodes]
  rw [getFromSets_eq_populated lc fetch globalAuto query setCodes st hg'
    hkey names hentry]
  letI : IsTotal String
      (fun a b => autocompleteLe (lowerChars query) lc a b = true) :=
    ⟨fun a b => autocompleteLe_total (lowerChars query) lc hlcTot a b⟩
  letI : IsTrans String
      (fun a b => autocompleteLe (lowerChars query) lc a b = true) :=
    ⟨fun a b c => autocompleteLe_trans (lowerChars query) lc hlcTrans a b c⟩
  refine ⟨rfl, ?_, ?_, ?_, ?_⟩
  · unfold filterAndRank
    exact List.length_take_le 8 _
  · intro n hn
    exact mem_of_mem_filterAndRank lc query names n hn
  · intro hlen n hmem hsub
    unfold filterAndRank
    have hlen' : ((names.filter
        (fun n => containsSub (lowerChars query) (lowerChars n))).insertionSort
          (fun a b => autocompleteLe (lowerChars query) lc a b = true)).length
          ≤ 8 := by
      rw [List.length_insertionSort]
      exact hlen
    rw [List.take_of_length_le hlen', List.mem_insertionSort]
    exact List.mem_filter.mpr ⟨hmem, hsub⟩
  · exact List.Pairwise.sublist (List.take_sublist 8 _)
      (List.sorted_insertionSort _ _)

/-- Witness for `suggestions_filter_rank_truncate` on a concrete populated
cache: the prefix match sorts first, then the substring matches in locale
order. -/
theorem suggestions_filter_rank_truncate_witness :
    (getCardNameAutocompleteFromSets c1LcW (fun _ => none) (fun _ => [])
        "al" ["seta"]
        ⟨[("seta", ["Windal", "Alder Gale", "Balding Man"])], "seta"⟩).1 =
      ["Alder Gale", "Balding Man", "Windal"] ∧
    (getCardNameAutocompleteFromSets c1LcW (fun _ => none) (fun _ => [])
        "al" ["seta"]
        ⟨[("seta", ["Windal", "Alder Gale", "Balding Man"])], "seta"⟩).1.length
      ≤ 8 := by
  constructor
  · decide
  · exact (suggestions_filter_rank_truncate c1LcW (fun _ => none) (fun _ => [])
      "al" ["seta"] ⟨[("seta", ["Windal", "Alder Gale", "Balding Man"])], "seta"⟩
      ["Windal", "Alder Gale", "Balding Man"] (by decide) (by decide) (by decide)
      (by decide) (fun a b => charListLe_total a.data b.data)
      (fun a b c h1 h2 => charListLe_trans a.data b.data c.data h1 h2)).2.1

/-! ## Multiple-choice generator (`generateMultipleChoiceOptions`,
scryfall.ts variant lines 356-428) -/

/-- One answer option `{ text, isCorrect }`. -/
structure MCOption where
  text : String
  isCorrect : Bool
deriving DecidableEq, Repr, Inhabited

/-- The swap `[arr[i], arr[j]] = [arr[j], arr[i]]`; out-of-range indices leave
the list unchanged (unreachable for the loop's indices). -/
def listSwap {α : Type} (l : List α) (i j : Nat) : List α :=
  match l[i]?, l[j]? with
  | some a, some b => (l.set i b).set j a
  | _, _ => l

/-- The Durstenfeld loop `for (i = n-1; i > 0; i--) swap(i, pick i)`,
counting the loop variable down from `n`. -/
def fyAux {α : Type} (pick : Nat → Nat) : Nat → List α → List α
  | 0, l => l
  | i + 1, l => fyAux pick i (listSwap l (i + 1) (pick (i + 1)))

/-- Embedding of `shuffleArray` (and of the candidate shuffle): swap index
`i` with `pick i`, for `i` from `length - 1` down to `1`; `pick i` models
`Math.floor(Math.random() * (i + 1))`. -/
def shuffleArray {α : Type} (pick : Nat → Nat) (l : List α) : List α :=
  fyAux pick (l.length - 1) l

/-- The wrong-answer collection loop: walk the shuffled candidates, keeping
the first 3 distinct names. -/
def takeWrongs : List ScryfallCard → List String → List String
  | [], acc => acc
  | card :: rest, acc =>
    if 3 ≤ acc.length then acc
    else if card.name ∈ acc then takeWrongs rest acc
    else takeWrongs rest (acc ++ [card.name])

/-- The fixed fallback list of well-known card names. -/
def mcFallbacks : List String :=
  ["Lightning Bolt", "Counterspell", "Giant Growth", "Sol Ring", "Path to Exile"]

/-- The fallback fill loop: walk the fallbacks, adding any that is neither
the correct name nor already chosen, until 3 wrong answers exist. -/
def fillFallbacks (correctName : String) : List String → List String → List String
  | [], acc => acc
  | f :: rest, acc =>
    if 3 ≤ acc.length then acc
    else if f ≠ correctName ∧ f ∉ acc then fillFallbacks correctName rest (acc ++ [f])
    else fillFallbacks correctName rest acc

/-- JS `wrongAnswers[k] || dflt`: a missing index (`undefined`) and the empty
string are both falsy and yield the default. -/
def jsStringOr (x : Option String) (d : String) : String :=
  match x with
  | none => d
  | some s => if s = "" then d else s

/-- Embedding of `generateMultipleChoiceOptions`.  `fetchResult` is the
outcome of the single `searchCardsMultipleSets` call (`none` models the
caught network failure, after which `availableCards` stays empty);
`pick1`/`pick2` model the random draws of the candidate shuffle and of the
final option shuffle. -/
def generateMultipleChoiceOptions (fetchResult : Option (List ScryfallCard))
    (pick1 pick2 : Nat → Nat) (correctCard : ScryfallCard) : List MCOption :=
  let availableCards := fetchResult.getD []
  let wrongAnswerCandidates :=
    availableCards.filter (fun card => card.name != correctCard.name)
  let shuffledCandidates := shuffleArray pick1 wrongAnswerCandidates
  let wrongAnswers :=
    fillFallbacks correctCard.name mcFallbacks (takeWrongs shuffledCandidates [])
  let options : List MCOption :=
    [⟨correctCard.name, true⟩,
     ⟨jsStringOr wrongAnswers[0]? "Lightning Bolt", false⟩,
     ⟨jsStringOr wrongAnswers[1]? "Counterspell", false⟩,
     ⟨jsStringOr wrongAnswers[2]? "Giant Growth", false⟩]
  shuffleArray pick2 options

/-- Setting an index trades the old element's occurrence for the new one. -/
theorem count_set_eq {α : Type} [DecidableEq α] :
    ∀ (l : List α) (n : Nat) (b : α) (h : n < l.length) (c : α),
      (l.set n b).count c + (if l[n] = c then 1 else 0) =
        l.count c + (if b = c then 1 else 0)
  | [], n, b, h, c => by simp at h
  | a :: as, 0, b, h, c => by
    simp only [List.set_cons_zero, List.getElem_cons_zero, List.count_cons]
    by_cases hb : b = c <;> by_cases ha : a = c <;>
      simp [hb, ha]
  | a :: as, n + 1, b, h, c => by
    have ih := count_set_eq as n b (by simpa using h) c
    simp only [List.set_cons_succ, List.getElem_cons_succ, List.count_cons]
    by_cases ha : a = c <;> simp [ha] <;> omega

/-- A swap is a permutation. -/
theorem listSwap_perm {α : Type} [DecidableEq α] (l : List α) (i j : Nat) :
    List.Perm (listSwap l i j) l := by
  unfold listSwap
  cases hi : l[i]? with
  | none => exact List.Perm.refl l
  | some a =>
    cases hj : l[j]? with
    | none => exact List.Perm.refl l
    | some b =>
      obtain ⟨hilt, hia⟩ := List.getElem?_eq_some.mp hi
      obtain ⟨hjlt, hjb⟩ := List.getElem?_eq_some.mp hj
      rw [List.perm_iff_count]
      intro c
      have hjlt' : j < (l.set i b).length := by simpa using hjlt
      have h1 := count_set_eq (l.set i b) j a hjlt' c
      have h2 := count_set_eq l i b hilt c
      have hval : (l.set i b)[j] = b := by
        by_cases hij : i = j
        · subst hij
          exact List.getElem_set_self hjlt'
        · rw [List.getElem_set_ne hij]
          exact hjb
      rw [hval] at h1
      rw [hia] at h2
      by_cases hac : a = c <;> by_cases hbc : b = c <;>
        simp [hac, hbc] at h1 h2 ⊢ <;> omega

/-- Each Durstenfeld pass is a permutation. -/
theorem fyAux_perm {α : Type} [DecidableEq α] (pick : Nat → Nat) :
    ∀ (n : Nat) (l : List α), List.Perm (fyAux pick n l) l
  | 0, l => List.Perm.refl l
  | n + 1, l =>
    (fyAux_perm pick n (listSwap l (n + 1) (pick (n + 1)))).trans
      (listSwap_perm l (n + 1) (pick (n + 1)))

/-- The shuffle is a permutation of its input, for every pick sequence. -/
theorem shuffleArray_perm {α : Type} [DecidableEq α] (pick : Nat → Nat)
    (l : List α) : List.Perm (shuffleArray pick l) l :=
  fyAux_perm pick (l.length - 1) l

/-- The collection loop never exceeds 3 wrong answers. -/
theorem takeWrongs_length_le :
    ∀ (cs : List ScryfallCard) (acc : List String), acc.length ≤ 3 →
      (takeWrongs cs acc).length ≤ 3
  | [], acc, h => h
  | card :: rest, acc, h => by
    unfold takeWrongs
    by_cases h3 : 3 ≤ acc.length
    · simpa [h3] using h
    · by_cases hmem : card.name ∈ acc
      · simp only [if_neg h3, if_pos hmem]
        exact takeWrongs_length_le rest acc h
      · simp only [if_neg h3, if_neg hmem]
        exact takeWrongs_length_le rest (acc ++ [card.name]) (by simp; omega)

/-- The collection loop keeps the accumulator duplicate-free. -/
theorem takeWrongs_nodup :
    ∀ (cs : List ScryfallCard) (acc : List String), acc.Nodup →
      (takeWrongs cs acc).Nodup
  | [], _, h => h
  | card :: rest, acc, h => by
    unfold takeWrongs
    by_cases h3 : 3 ≤ acc.length
    · simpa [h3] using h
    · by_cases hmem : card.name ∈ acc
      · simp only [if_neg h3, if_pos hmem]
        exact takeWrongs_nodup rest acc h
      · simp only [if_neg h3, if_neg hmem]
        exact takeWrongs_nodup rest (acc ++ [card.name])
          (by simp [List.nodup_append, h, hmem])

/-- Every collected wrong answer is an accumulator entry or a candidate's
name. -/
theorem takeWrongs_mem :
    ∀ (cs : List ScryfallCard) (acc : List String) (w : String),
      w ∈ takeWrongs cs acc → w ∈ acc ∨ ∃ card ∈ cs, card.name = w
  | [], _, w, h => Or.inl h
  | card :: rest, acc, w, h => by
    unfold takeWrongs at h
    by_cases h3 : 3 ≤ acc.length
    · rw [if_pos h3] at h
      exact Or.inl h
    · by_cases hmem : card.name ∈ acc
      · rw [if_neg h3, if_pos hmem] at h
        rcases takeWrongs_mem rest acc w h with h' | ⟨c, hc, hcw⟩
        · exact Or.inl h'
        · exact Or.inr ⟨c, List.mem_cons_of_mem card hc, hcw⟩
      · rw [if_neg h3, if_neg hmem] at h
        rcases takeWrongs_mem rest (acc ++ [card.name]) w h with h' | ⟨c, hc, hcw⟩
        · rcases List.mem_append.mp h' with h'' | h''
          · exact Or.inl h''
          · exact Or.inr ⟨card, List.mem_cons_self card rest,
              (List.mem_singleton.mp h'').symm⟩
        · exact Or.inr ⟨c, List.mem_cons_of_mem card hc, hcw⟩

/-- The fill loop never exceeds 3 wrong answers. -/
theorem fillFallbacks_length_le (c : String) :
    ∀ (fs acc : List String), acc.length ≤ 3 →
      (fillFallbacks c fs acc).length ≤ 3
  | [], acc, h => h
  | f :: rest, acc, h => by
    unfold fillFallbacks
    by_cases h3 : 3 ≤ acc.length
    · simpa [h3] using h
    · by_cases husable : f ≠ c ∧ f ∉ acc
      · simp only [if_neg h3, if_pos husable]
        exact fillFallbacks_length_le c rest (acc ++ [f]) (by simp; omega)
      · simp only [if_neg h3, if_neg husable]
        exact fillFallbacks_length_le c rest acc h

/-- The fill loop keeps the accumulator duplicate-free. -/
theorem fillFallbacks_nodup (c : String) :
    ∀ (fs acc : List String), acc.Nodup → (fillFallbacks c fs acc).Nodup
  | [], _, h => h
  | f :: rest, acc, h => by
    unfold fillFallbacks
    by_cases h3 : 3 ≤ acc.length
    · simpa [h3] using h
    · by_cases husable : f ≠ c ∧ f ∉ acc
      · simp only [if_neg h3, if_pos husable]
        exact fillFallbacks_nodup c rest (acc ++ [f])
          (by simp [List.nodup_append, h, husable.2])
      · simp only [if_neg h3, if_neg husable]
        exact fillFallbacks_nodup c rest acc h

/-- The fill loop never adds the correct name. -/
theorem fillFallbacks_ne_correct (c : String) :
    ∀ (fs acc : List String), (∀ w ∈ acc, w ≠ c) →
      ∀ w ∈ fillFallbacks c fs acc, w ≠ c
  | [], _, h => h
  | f :: rest, acc, h => by
    unfold fillFallbacks
    by_cases h3 : 3 ≤ acc.length
    · simpa [h3] using h
    · by_cases husable : f ≠ c ∧ f ∉ acc
      · simp only [if_neg h3, if_pos husable]
        refine fillFallbacks_ne_correct c rest (acc ++ [f]) ?_
        intro w hw
        rcases List.mem_append.mp hw with hw' | hw'
        · exact h w hw'
        · exact (List.mem_singleton.mp hw') ▸ husable.1
      · simp only [if_neg h3, if_neg husable]
        exact fillFallbacks_ne_correct c rest acc h

/-- Every filled wrong answer is an accumulator entry or a fallback. -/
theorem fillFallbacks_mem (c : String) :
    ∀ (fs acc : List String) (w : String),
      w ∈ fillFallbacks c fs acc → w ∈ acc ∨ w ∈ fs
  | [], _, w, h => Or.inl h
  | f :: rest, acc, w, h => by
    unfold fillFallbacks at h
    by_cases h3 : 3 ≤ acc.length
    · rw [if_pos h3] at h
      exact Or.inl h
    · by_cases husable : f ≠ c ∧ f ∉ acc
      · rw [if_neg h3, if_pos husable] at h
        rcases fillFallbacks_mem c rest (acc ++ [f]) w h with h' | h'
        · rcases List.mem_append.mp h' with h'' | h''
          · exact Or.inl h''
          · exact Or.inr ((List.mem_singleton.mp h'') ▸ List.mem_cons_self f rest)
        · exact Or.inr (List.mem_cons_of_mem f h')
      · rw [if_neg h3, if_neg husable] at h
        rcases fillFallbacks_mem c rest acc w h with h' | h'
        · exact Or.inl h'
        · exact Or.inr (List.mem_cons_of_mem f h')

/-- When enough usable fallbacks remain (not the correct name, not already
chosen), the fill loop ends with exactly 3 wrong answers. -/
theorem fillFallbacks_length_eq (c : String) :
    ∀ (fs acc : List String), fs.Nodup → acc.length ≤ 3 →
      3 ≤ acc.length + (fs.filter (fun f => decide (f ≠ c ∧ f ∉ acc))).length →
      (fillFallbacks c fs acc).length = 3
  | [], acc, _, hle, hge => by
    simp only [List.filter_nil, List.length_nil, Nat.add_zero] at hge
    unfold fillFallbacks
    omega
  | f :: rest, acc, hnd, hle, hge => by
    unfold fillFallbacks
    by_cases h3 : 3 ≤ acc.length
    · rw [if_pos h3]
      omega
    · rw [if_neg h3]
      by_cases husable : f ≠ c ∧ f ∉ acc
      · rw [if_pos husable]
        apply fillFallbacks_length_eq c rest (acc ++ [f])
          (List.nodup_cons.mp hnd).2 (by simp; omega)
        have hfr : f ∉ rest := (List.nodup_cons.mp hnd).1
        have hfil : rest.filter (fun g => decide (g ≠ c ∧ g ∉ acc ++ [f])) =
            rest.filter (fun g => decide (g ≠ c ∧ g ∉ acc)) := by
          apply List.filter_congr
          intro g hg
          have hgf : g ≠ f := fun hgf => hfr (hgf ▸ hg)
          apply decide_eq_decide.mpr
          simp [List.mem_append, hgf]
        have hcons : (f :: rest).filter (fun g => decide (g ≠ c ∧ g ∉ acc)) =
            f :: rest.filter (fun g => decide (g ≠ c ∧ g ∉ acc)) := by
          simp [List.filter_cons, husable]
        rw [hcons] at hge
        rw [hfil]
        simp only [List.length_append, List.length_cons, List.length_singleton] at hge ⊢
        omega
      · rw [if_neg husable]
        apply fillFallbacks_length_eq c rest acc (List.nodup_cons.mp hnd).2 hle
        have hcons : (f :: rest).filter (fun g => decide (g ≠ c ∧ g ∉ acc)) =
            rest.filter (fun g => decide (g ≠ c ∧ g ∉ acc)) := by
          simp [List.filter_cons, husable]
        rw [hcons] at hge
        exact hge

/-- Of the five distinct fallbacks, at most one is the correct name and at
most `acc.length` are already chosen, so enough remain to fill up to 3. -/
theorem mcFallbacks_usable_count (c : String) (acc : List String) :
    3 ≤ acc.length +
      (mcFallbacks.filter (fun f => decide (f ≠ c ∧ f ∉ acc))).length := by
  have hsplit :=
    (List.filter_append_perm (fun f => decide (f ≠ c ∧ f ∉ acc)) mcFallbacks).length_eq
  rw [List.length_append] at hsplit
  have h5 : mcFallbacks.length = 5 := rfl
  have hsub : (mcFallbacks.filter
      (fun f => !(decide (f ≠ c ∧ f ∉ acc)))) ⊆ c :: acc := by
    intro f hf
    have hmem := List.mem_filter.mp hf
    have hneg : ¬(f ≠ c ∧ f ∉ acc) := by
      have := hmem.2
      simp only [Bool.not_eq_true'] at this
      exact of_decide_eq_false this
    by_cases hfc : f = c
    · exact hfc ▸ List.mem_cons_self c acc
    · push_neg at hneg
      exact List.mem_cons_of_mem c (hneg hfc)
  have hnd2 : (mcFallbacks.filter
      (fun f => !(decide (f ≠ c ∧ f ∉ acc)))).Nodup :=
    List.Nodup.filter _ (by decide)
  have hle2 := (List.subperm_of_subset hnd2 hsub).length_le
  simp only [List.length_cons] at hle2
  omega

/-- After the collection and fill stages the wrong-answer list has exactly 3
distinct entries, none equal to the correct name, each either a shuffled
candidate's name or a fallback. -/
theorem wrongAnswers_spec (shuffled : List ScryfallCard) (c : String)
    (hcand : ∀ card ∈ shuffled, card.name ≠ c) :
    (fillFallbacks c mcFallbacks (takeWrongs shuffled [])).length = 3 ∧
    (fillFallbacks c mcFallbacks (takeWrongs shuffled [])).Nodup ∧
    (∀ w ∈ fillFallbacks c mcFallbacks (takeWrongs shuffled []), w ≠ c) ∧
    (∀ w ∈ fillFallbacks c mcFallbacks (takeWrongs shuffled []),
      (∃ card ∈ shuffled, card.name = w) ∨ w ∈ mcFallbacks) := by
  have hAnd : (takeWrongs shuffled []).Nodup :=
    takeWrongs_nodup shuffled [] List.nodup_nil
  have hAle : (takeWrongs shuffled []).length ≤ 3 :=
    takeWrongs_length_le shuffled [] (by simp)
  have hAmem : ∀ w ∈ takeWrongs shuffled [], ∃ card ∈ shuffled, card.name = w := by
    intro w hw
    rcases takeWrongs_mem shuffled [] w hw with h | h
    · exact absurd h (List.not_mem_nil w)
    · exact h
  have hAne : ∀ w ∈ takeWrongs shuffled [], w ≠ c := by
    intro w hw
    obtain ⟨card, hcs, hcw⟩ := hAmem w hw
    exact hcw ▸ hcand card hcs
  refine ⟨?_, fillFallbacks_nodup c mcFallbacks _ hAnd,
    fillFallbacks_ne_correct c mcFallbacks _ hAne, ?_⟩
  · exact fillFallbacks_length_eq c mcFallbacks _ (by decide) hAle
      (mcFallbacks_usable_count c _)
  · intro w hw
    rcases fillFallbacks_mem c mcFallbacks _ w hw with h | h
    · exact Or.inl (hAmem w h)
    · exact Or.inr h

/-- No fallback name is empty. -/
theorem mcFallbacks_nonempty_names : ∀ w ∈ mcFallbacks, w ≠ "" := by decide

/-- C4 (amended): for every fetch outcome whose cards all carry a non-empty
name, every correct card and every pair of random pick sequences, the
generator returns exactly 4 options, exactly one of them marked correct and
bearing the correct card's name, with no duplicate texts; it is a total
function (any fetch failure just leaves the candidate pool empty), and every
wrong option's text differs from the correct name and is either a fetched
candidate's name or one of the fixed fallbacks. -/
theorem generateMultipleChoiceOptions_spec
    (fetchResult : Option (List ScryfallCard)) (pick1 pick2 : Nat → Nat)
    (correctCard : ScryfallCard)
    (hnames : ∀ card ∈ fetchResult.getD [], card.name ≠ "") :
    (generateMultipleChoiceOptions fetchResult pick1 pick2 correctCard).length = 4 ∧
    (generateMultipleChoiceOptions fetchResult pick1 pick2 correctCard).filter
      (fun o => o.isCorrect) = [⟨correctCard.name, true⟩] ∧
    ((generateMultipleChoiceOptions fetchResult pick1 pick2 correctCard).map
      MCOption.text).Nodup ∧
    (∀ o ∈ generateMultipleChoiceOptions fetchResult pick1 pick2 correctCard,
      o.isCorrect = false →
        o.text ≠ correctCard.name ∧
        ((∃ card ∈ fetchResult.getD [], card.name = o.text) ∨
          o.text ∈ mcFallbacks)) := by
  have hcand : ∀ card ∈ shuffleArray pick1
      ((fetchResult.getD []).filter
        (fun card => card.name != correctCard.name)),
      card.name ≠ correctCard.name := by
    intro card hcard
    have hmem := (shuffleArray_perm pick1 _).mem_iff.mp hcard
    have := (List.mem_filter.mp hmem).2
    simpa using this
  have hsrc : ∀ card ∈ shuffleArray pick1
      ((fetchResult.getD []).filter
        (fun card => card.name != correctCard.name)),
      card ∈ fetchResult.getD [] := by
    intro card hcard
    exact (List.mem_filter.mp ((shuffleArray_perm pick1 _).mem_iff.mp hcard)).1
  obtain ⟨hlen3, hnodupW, hneW, hmemW⟩ :=
    wrongAnswers_spec _ correctCard.name hcand
  obtain ⟨w0, w1, w2, hW⟩ := List.length_eq_three.mp hlen3
  have hWmem : ∀ w ∈ [w0, w1, w2],
      (∃ card ∈ fetchResult.getD [], card.name = w) ∨ w ∈ mcFallbacks := by
    intro w hw
    rcases hmemW w (hW ▸ hw) with ⟨card, hcs, hcw⟩ | h
    · exact Or.inl ⟨card, hsrc card hcs, hcw⟩
    · exact Or.inr h
  have hWne : ∀ w ∈ [w0, w1, w2], w ≠ correctCard.name := fun w hw =>
    hneW w (hW ▸ hw)
  have hWnonempty : ∀ w ∈ [w0, w1, w2], w ≠ "" := by
    intro w hw
    rcases hWmem w hw with ⟨card, hcs, hcw⟩ | h
    · exact hcw ▸ hnames card hcs
    · exact mcFallbacks_nonempty_names w h
  have hWnodup : ([w0, w1, w2] : List String).Nodup := hW ▸ hnodupW
  have hresult : generateMultipleChoiceOptions fetchResult pick1 pick2 correctCard =
      shuffleArray pick2
        [⟨correctCard.name, true⟩, ⟨w0, false⟩, ⟨w1, false⟩, ⟨w2, false⟩] := by
    simp only [generateMultipleChoiceOptions]
    rw [hW]
    have h0 : jsStringOr ([w0, w1, w2][0]?) "Lightning Bolt" = w0 := by
      simp [jsStringOr, hWnonempty w0 (by simp)]
    have h1 : jsStringOr ([w0, w1, w2][1]?) "Counterspell" = w1 := by
      simp [jsStringOr, hWnonempty w1 (by simp)]
    have h2 : jsStringOr ([w0, w1, w2][2]?) "Giant Growth" = w2 := by
      simp [jsStringOr, hWnonempty w2 (by simp)]
    rw [h0, h1, h2]
  rw [hresult]
  have hperm := shuffleArray_perm pick2
    [(⟨correctCard.name, true⟩ : MCOption), ⟨w0, false⟩, ⟨w1, false⟩, ⟨w2, false⟩]
  refine ⟨?_, ?_, ?_, ?_⟩
  · rw [hperm.length_eq]
    rfl
  · apply List.perm_singleton.mp
    have hfil := hperm.filter (fun o => o.isCorrect)
    have : ([(⟨correctCard.name, true⟩ : MCOption), ⟨w0, false⟩, ⟨w1, false⟩,
        ⟨w2, false⟩].filter (fun o => o.isCorrect)) =
        [⟨correctCard.name, true⟩] := by
      simp [List.filter_cons]
    rwa [this] at hfil
  · have hmapperm := hperm.map MCOption.text
    rw [List.Perm.nodup_iff hmapperm]
    have hne0 := hWne w0 (by simp)
    have hne1 := hWne w1 (by simp)
    have hne2 := hWne w2 (by simp)
    simp only [List.map_cons, List.map_nil]
    simp only [List.nodup_cons, List.mem_cons, List.not_mem_nil, or_false,
      List.mem_singleton] at hWnodup ⊢
    refine ⟨?_, hWnodup⟩
    push_neg
    exact ⟨fun h => (hne0 h.symm).elim, fun h => (hne1 h.symm).elim,
      fun h => (hne2 h.symm).elim⟩
  · intro o ho hwrong
    have hmem := hperm.mem_iff.mp ho
    simp only [List.mem_cons, List.not_mem_nil, or_false] at hmem
    rcases hmem with h | h | h | h
    · rw [h] at hwrong
      simp at hwrong
    · rw [h]
      exact ⟨hWne w0 (by simp), hWmem w0 (by simp)⟩
    · rw [h]
      exact ⟨hWne w1 (by simp), hWmem w1 (by simp)⟩
    · rw [h]
      exact ⟨hWne w2 (by simp), hWmem w2 (by simp)⟩

/-- C4 counterexample: when the fetched pool contains a card whose name is
the empty string, the empty-string wrong answer is falsy, so the `||`
defaulting replaces it with the hard-coded `Lightning Bolt` — which here is
the correct answer — and the 4 options carry a duplicate text. -/
theorem generateOptions_duplicate_text :
    (generateMultipleChoiceOptions (some [⟨"", "pool"⟩]) (fun _ => 0)
        (fun _ => 0) ⟨"Lightning Bolt", "pool"⟩).map MCOption.text =
      ["Lightning Bolt", "Counterspell", "Giant Growth", "Lightning Bolt"] ∧
    ¬ ((generateMultipleChoiceOptions (some [⟨"", "pool"⟩]) (fun _ => 0)
        (fun _ => 0) ⟨"Lightning Bolt", "pool"⟩).map MCOption.text).Nodup := by
  constructor
  · decide
  · decide

/-- Witness for `generateMultipleChoiceOptions_spec` on a two-card pool with
non-empty names. -/
theorem generateMultipleChoiceOptions_spec_witness :
    (generateMultipleChoiceOptions (some [⟨"CardA", "x"⟩, ⟨"CardB", "x"⟩])
      (fun _ => 0) (fun _ => 0) ⟨"CardC", "x"⟩).length = 4 ∧
    ((generateMultipleChoiceOptions (some [⟨"CardA", "x"⟩, ⟨"CardB", "x"⟩])
      (fun _ => 0) (fun _ => 0) ⟨"CardC", "x"⟩).map MCOption.text).Nodup := by
  have h := generateMultipleChoiceOptions_spec
    (some [⟨"CardA", "x"⟩, ⟨"CardB", "x"⟩]) (fun _ => 0) (fun _ => 0)
    ⟨"CardC", "x"⟩ (by decide)
  exact ⟨h.1, h.2.2.1⟩

/-! ## Round/session state machine (`CardGuessingGame.tsx`) -/

/-- The three input modes of the game component. -/
inductive InputMode
  | autocomplete
  | plaintext
  | multiplechoice
deriving DecidableEq, Repr

/-- The component's `gameState` record. -/
structure GameState where
  currentCard : Option ScryfallCard
  isLoading : Bool
  isGuessSubmitted : Bool
  lastGuess : String
  isCorrectGuess : Option Bool
  score : Nat
  streak : Nat
  totalGuesses : Nat
  inputMode : InputMode
  multipleChoiceOptions : List MCOption
  selectedChoice : Option String
deriving DecidableEq, Repr

/-- The `useState` initial value of `gameState`. -/
def initialGameState (mode : InputMode) : GameState :=
  ⟨none, false, false, "", none, 0, 0, 0, mode, [], none⟩

/-- `submitGuess`'s guards: in multiple-choice mode a missing or empty
(falsy) selected choice aborts; otherwise an input whose trim is empty
aborts; the surviving guess text is used both for checking and display. -/
def submittedGuess (mode : InputMode) (guessInput : String)
    (selectedChoice : Option String) : Option String :=
  match mode with
  | .multiplechoice =>
    match selectedChoice with
    | none => none
    | some c => if c = "" then none else some c
  | _ => if jsTrim guessInput = "" then none else some guessInput

/-- Embedding of `submitGuess` (CardGuessingGame.tsx lines 349-384): resolve
the active round with the typed or chosen guess. -/
def submitGuess (mode : InputMode) (guessInput : String)
    (selectedChoice : Option String) (st : GameState) : GameState :=
  match st.currentCard with
  | none => st
  | some card =>
    match submittedGuess mode guessInput selectedChoice with
    | none => st
    | some g =>
      let isCorrect := cardNamesMatch g card.name
      { st with
        isGuessSubmitted := true
        lastGuess := g
        isCorrectGuess := some isCorrect
        score := if isCorrect then st.score + 1 else st.score
        streak := if isCorrect then st.streak + 1 else 0
        totalGuesses := st.totalGuesses + 1
        selectedChoice := match mode with
          | .multiplechoice => selectedChoice
          | _ => none }

/-- Embedding of `handleChoiceSelect` (lines 431-453): clicking an option
resolves the round at once. -/
def handleChoiceSelect (choice : String) (st : GameState) : GameState :=
  match st.currentCard with
  | none => st
  | some card =>
    let isCorrect := cardNamesMatch choice card.name
    { st with
      isGuessSubmitted := true
      lastGuess := choice
      isCorrectGuess := some isCorrect
      score := if isCorrect then st.score + 1 else st.score
      streak := if isCorrect then st.streak + 1 else 0
      totalGuesses := st.totalGuesses + 1
      selectedChoice := some choice }

/-- Embedding of `skipCard` (lines 386-402). -/
def skipCard (st : GameState) : GameState :=
  match st.currentCard with
  | none => st
  | some _ =>
    { st with
      isGuessSubmitted := true
      lastGuess := ""
      isCorrectGuess := some false
      streak := 0
      totalGuesses := st.totalGuesses + 1
      selectedChoice := none }

/-- The `setGameState` update of `resetScores` (lines 410-421). -/
def resetScoresGame (st : GameState) : GameState :=
  { st with
    score := 0
    streak := 0
    totalGuesses := 0
    currentCard := none
    isGuessSubmitted := false
    lastGuess := ""
    isCorrectGuess := none
    multipleChoiceOptions := []
    selectedChoice := none }

/-- The `setGameState` update of a successful `loadNewCard` (lines 322-331). -/
def cardLoaded (card : ScryfallCard) (opts : List MCOption)
    (st : GameState) : GameState :=
  { st with
    currentCard := some card
    isLoading := false
    isGuessSubmitted := false
    lastGuess := ""
    isCorrectGuess := none
    multipleChoiceOptions := opts
    selectedChoice := none }

/-- The `setGameState` update of a failed `loadNewCard` (lines 341-345). -/
def loadFailed (st : GameState) : GameState :=
  { st with isLoading := false, currentCard := none }

/-! ## Persistence (`persistence.ts`) and the reset action -/

/-- The persisted snapshot's fields (timestamps aside, which carry no
logic). -/
structure PersistedGameState where
  selectedSets : List String
  isGameActive : Bool
  inputMode : InputMode
  score : Nat
  streak : Nat
  totalGuesses : Nat
  currentCard : Option ScryfallCard
  isGuessSubmitted : Bool
  lastGuess : String
  isCorrectGuess : Option Bool
  guessInput : String
  multipleChoiceOptions : List String
  selectedChoice : Option String
deriving DecidableEq, Repr

/-- Embedding of `resetGameScores` (persistence.ts lines 225-241): load the
snapshot and save a partial update that zeroes the scores and clears the
round, merging into the existing snapshot — `selectedSets` and `inputMode`
are not in the partial, so the merge keeps them. -/
def resetGameScores (p : PersistedGameState) : PersistedGameState :=
  { p with
    score := 0
    streak := 0
    totalGuesses := 0
    currentCard := none
    isGuessSubmitted := false
    lastGuess := ""
    isCorrectGuess := none
    guessInput := ""
    multipleChoiceOptions := []
    selectedChoice := none
    isGameActive := false }

/-- The component state around the game: the `selectedSets` prop (the active
FilterSet), the game record, and the two input-side `useState`s. -/
structure ComponentState where
  selectedSets : List String
  gameState : GameState
  guessInput : String
  selectedChoice : Option String
deriving DecidableEq, Repr

/-- Embedding of the component's `resetScores` (CardGuessingGame.tsx lines
408-425) together with its `resetGameScores()` call into the store: zero the
in-memory counters, clear the inputs, merge the zeroed partial into the
persisted snapshot, and request a fresh card load (the returned flag models
the `loadNewCard()` call).  The `selectedSets` prop is untouched. -/
def resetScores (cs : ComponentState) (store : PersistedGameState) :
    ComponentState × PersistedGameState × Bool :=
  ({ cs with
      gameState := resetScoresGame cs.gameState
      guessInput := ""
      selectedChoice := none },
    resetGameScores store, true)

/-! ## C6: counter updates on round resolution -/

/-- C6: resolving an active round (one with a current card) behaves as
specified: a correct free-text or multiple-choice submit increments score
and streak by 1; an incorrect one leaves score unchanged and zeroes streak;
a choice click behaves the same way; a skip zeroes streak, leaves score
unchanged, records `isCorrectGuess = false` with empty guess text; and every
resolution increments total attempts by exactly 1. -/
theorem round_resolution_counters :
    (∀ (st : GameState) (card : ScryfallCard) (mode : InputMode)
        (g : String) (ch : Option String) (gg : String),
      st.currentCard = some card → submittedGuess mode g ch = some gg →
        (cardNamesMatch gg card.name = true →
          (submitGuess mode g ch st).score = st.score + 1 ∧
          (submitGuess mode g ch st).streak = st.streak + 1) ∧
        (cardNamesMatch gg card.name = false →
          (submitGuess mode g ch st).score = st.score ∧
          (submitGuess mode g ch st).streak = 0) ∧
        (submitGuess mode g ch st).totalGuesses = st.totalGuesses + 1) ∧
    (∀ (st : GameState) (card : ScryfallCard) (choice : String),
      st.currentCard = some card →
        (cardNamesMatch choice card.name = true →
          (handleChoiceSelect choice st).score = st.score + 1 ∧
          (handleChoiceSelect choice st).streak = st.streak + 1) ∧
        (cardNamesMatch choice card.name = false →
          (handleChoiceSelect choice st).score = st.score ∧
          (handleChoiceSelect choice st).streak = 0) ∧
        (handleChoiceSelect choice st).totalGuesses = st.totalGuesses + 1) ∧
    (∀ (st : GameState) (card : ScryfallCard),
      st.currentCard = some card →
        (skipCard st).score = st.score ∧
        (skipCard st).streak = 0 ∧
        (skipCard st).totalGuesses = st.totalGuesses + 1 ∧
        (skipCard st).isCorrectGuess = some false ∧
        (skipCard st).lastGuess = "") := by
  refine ⟨?_, ?_, ?_⟩
  · intro st card mode g ch gg hcard hguess
    refine ⟨?_, ?_, ?_⟩
    · intro hmatch
      constructor <;> simp [submitGuess, hcard, hguess, hmatch]
    · intro hmatch
      constructor <;> simp [submitGuess, hcard, hguess, hmatch]
    · simp [submitGuess, hcard, hguess]
  · intro st card choice hcard
    refine ⟨?_, ?_, ?_⟩
    · intro hmatch
      constructor <;> simp [handleChoiceSelect, hcard, hmatch]
    · intro hmatch
      constructor <;> simp [handleChoiceSelect, hcard, hmatch]
    · simp [handleChoiceSelect, hcard]
  · intro st card hcard
    refine ⟨?_, ?_, ?_, ?_, ?_⟩ <;> simp [skipCard, hcard]

/-- Witness for `round_resolution_counters` on a concrete active round:
submitting the exact name scores, submitting a wrong name and skipping do
not. -/
theorem round_resolution_counters_witness :
    (submitGuess .plaintext "Lightning Bolt" none
      (cardLoaded ⟨"Lightning Bolt", "lea"⟩ []
        (initialGameState .plaintext))).score = 0 + 1 ∧
    (submitGuess .plaintext "Shock" none
      (cardLoaded ⟨"Lightning Bolt", "lea"⟩ []
        (initialGameState .plaintext))).streak = 0 ∧
    (skipCard (cardLoaded ⟨"Lightning Bolt", "lea"⟩ []
      (initialGameState .plaintext))).lastGuess = "" := by
  refine ⟨?_, ?_, ?_⟩
  · exact ((round_resolution_counters.1
      (cardLoaded ⟨"Lightning Bolt", "lea"⟩ [] (initialGameState .plaintext))
      ⟨"Lightning Bolt", "lea"⟩ .plaintext "Lightning Bolt" none
      "Lightning Bolt" rfl (by decide)).1 (by decide)).1
  · exact ((round_resolution_counters.1
      (cardLoaded ⟨"Lightning Bolt", "lea"⟩ [] (initialGameState .plaintext))
      ⟨"Lightning Bolt", "lea"⟩ .plaintext "Shock" none
      "Shock" rfl (by decide)).2.1 (by decide)).2
  · exact (round_resolution_counters.2.2
      (cardLoaded ⟨"Lightning Bolt", "lea"⟩ [] (initialGameState .plaintext))
      ⟨"Lightning Bolt", "lea"⟩ rfl).2.2.2.2

/-- C8: the reset action zeroes score, streak and total attempts both in the
component state and in the persisted snapshot, requests a fresh card load,
and leaves the active FilterSet — the `selectedSets` prop in memory and the
`selectedSets` field of the persisted snapshot — unchanged. -/
theorem reset_clears_scores_keeps_filterset (cs : ComponentState)
    (store : PersistedGameState) :
    (resetScores cs store).1.gameState.score = 0 ∧
    (resetScores cs store).1.gameState.streak = 0 ∧
    (resetScores cs store).1.gameState.totalGuesses = 0 ∧
    (resetScores cs store).2.2 = true ∧
    (resetScores cs store).1.selectedSets = cs.selectedSets ∧
    (resetScores cs store).2.1.score = 0 ∧
    (resetScores cs store).2.1.streak = 0 ∧
    (resetScores cs store).2.1.totalGuesses = 0 ∧
    (resetScores cs store).2.1.selectedSets = store.selectedSets ∧
    (resetScores cs store).2.1.inputMode = store.inputMode :=
  ⟨rfl, rfl, rfl, rfl, rfl, rfl, rfl, rfl, rfl, rfl⟩

/-! ## C10: the counter chain is invariant under every operation sequence -/

/-- The component operations that touch the counters, with their inputs;
`cardLoaded`/`loadFailed` are the environment events that install or clear
the current card (without them every resolution would be a no-op, since the
initial state has no card). -/
inductive GameOp
  | submit (mode : InputMode) (guessInput : String) (choice : Option String)
  | choiceSelect (choice : String)
  | skip
  | reset
  | load (card : ScryfallCard) (opts : List MCOption)
  | loadFail

/-- One step of the component. -/
def applyGameOp (st : GameState) : GameOp → GameState
  | .submit mode g c => submitGuess mode g c st
  | .choiceSelect c => handleChoiceSelect c st
  | .skip => skipCard st
  | .reset => resetScoresGame st
  | .load card opts => cardLoaded card opts st
  | .loadFail => loadFailed st

/-- A run of the component from a starting state. -/
def runGameOps (ops : List GameOp) (st : GameState) : GameState :=
  ops.foldl applyGameOp st

/-- The counter chain `streak ≤ score ≤ totalGuesses`. -/
def countersInv (st : GameState) : Prop :=
  st.streak ≤ st.score ∧ st.score ≤ st.totalGuesses

/-- Every single operation preserves the counter chain. -/
theorem applyGameOp_countersInv (st : GameState) (op : GameOp)
    (h : countersInv st) : countersInv (applyGameOp st op) := by
  obtain ⟨h1, h2⟩ := h
  cases op with
  | submit mode g c =>
    simp only [applyGameOp, submitGuess]
    cases st.currentCard with
    | none => exact ⟨h1, h2⟩
    | some card =>
      cases submittedGuess mode g c with
      | none => exact ⟨h1, h2⟩
      | some gg =>
        by_cases hm : cardNamesMatch gg card.name = true
        · simp only [hm]
          exact ⟨by simp; omega, by simp; omega⟩
        · rw [Bool.not_eq_true] at hm
          simp only [hm]
          exact ⟨by simp, by simp; omega⟩
  | choiceSelect c =>
    simp only [applyGameOp, handleChoiceSelect]
    cases st.currentCard with
    | none => exact ⟨h1, h2⟩
    | some card =>
      by_cases hm : cardNamesMatch c card.name = true
      · simp only [hm]
        exact ⟨by simp; omega, by simp; omega⟩
      · rw [Bool.not_eq_true] at hm
        simp only [hm]
        exact ⟨by simp, by simp; omega⟩
  | skip =>
    simp only [applyGameOp, skipCard]
    cases st.currentCard with
    | none => exact ⟨h1, h2⟩
    | some card => exact ⟨by simp, by simp; omega⟩
  | reset => exact ⟨Nat.le_refl 0, Nat.le_refl 0⟩
  | load card opts => exact ⟨h1, h2⟩
  | loadFail => exact ⟨h1, h2⟩

/-- A run preserves the counter chain. -/
theorem runGameOps_countersInv :
    ∀ (ops : List GameOp) (st : GameState), countersInv st →
      countersInv (runGameOps ops st)
  | [], _, h => h
  | op :: ops, st, h =>
    runGameOps_countersInv ops (applyGameOp st op)
      (applyGameOp_countersInv st op h)

/-- C10: from the initial counters (score 0, streak 0, total 0), every
sequence of submit, choice-select, skip and reset operations — with card
loads and load failures interleaved freely — keeps
`0 ≤ streak ≤ score ≤ totalGuesses`. -/
theorem counters_invariant (mode : InputMode) (ops : List GameOp) :
    0 ≤ (runGameOps ops (initialGameState mode)).streak ∧
    (runGameOps ops (initialGameState mode)).streak ≤
      (runGameOps ops (initialGameState mode)).score ∧
    (runGameOps ops (initialGameState mode)).score ≤
      (runGameOps ops (initialGameState mode)).totalGuesses := by
  have h := runGameOps_countersInv ops (initialGameState mode)
    ⟨Nat.le_refl 0, Nat.le_refl 0⟩
  exact ⟨Nat.zero_le _, h.1, h.2⟩
